import Mathlib

/-!
Verification of the aggregation pipeline in `src/data_processing.py` of the
`mma_espn_analysis` repository.

Python strings are modelled as `List Char`, numeric cell values as `Rat`,
and missing values (`None` / `NaN`) as `Option`.  Each definition below
embeds the source function whose name it carries.
-/

/- Let concrete rational arithmetic reduce inside `decide`. -/
attribute [local semireducible] Rat.mul Rat.inv Rat.add Rat.sub

/-- A Python string, modelled as its list of characters. -/
abbrev PyStr := List Char

/-- Embeds Python `str.rstrip()` (for a whitespace predicate `p`):
removes the trailing run of characters satisfying `p`. -/
def rstrip (p : Char → Bool) : PyStr → PyStr
  | [] => []
  | a :: t =>
    let r := rstrip p t
    if r.isEmpty then (if p a then [] else [a]) else a :: r

/-- Embeds Python `str.strip()`: removes leading and trailing whitespace. -/
def pyStrip (s : PyStr) : PyStr :=
  (rstrip Char.isWhitespace s).dropWhile Char.isWhitespace

/-- Embeds Python `s.split(sep, 1)` for a one-character separator, as the
pair (text before the first occurrence, text after it).  Only used on
strings that contain the separator, as in the source. -/
def splitFirst (c : Char) : PyStr → PyStr × PyStr
  | [] => ([], [])
  | a :: t =>
    if a = c then ([], t)
    else
      let p := splitFirst c t
      (a :: p.1, p.2)

/-- Embeds `_normalize_name` from `src/data_processing.py`: `None`/`NaN`
maps to `None`; a string containing a comma is interpreted as
`"Last, First"` (split at the first comma, both parts stripped) and
returned as `"First Last"`; any other string is stripped and returned. -/
def _normalize_name : Option PyStr → Option PyStr
  | none => none
  | some name =>
    let name_str := pyStrip name
    if (',' : Char) ∈ name_str then
      let parts := splitFirst ',' name_str
      let last := pyStrip parts.1
      let first := pyStrip parts.2
      some (first ++ [' '] ++ last)
    else
      some name_str

/- ## Auxiliary lemmas about stripping and splitting -/

theorem rstrip_eq_nil_iff {p : Char → Bool} {l : PyStr} :
    rstrip p l = [] ↔ ∀ c ∈ l, p c = true := by
  induction l with
  | nil => simp [rstrip]
  | cons a t ih =>
    simp only [rstrip, List.isEmpty_iff]
    by_cases hr : rstrip p t = []
    · by_cases hp : p a = true <;> simp [hr, hp, ih.mp hr] <;> simp_all
    · simp only [if_neg hr]
      constructor
      · intro h; cases h
      · intro h
        exact absurd (ih.mpr fun c hc => h c (List.mem_cons_of_mem a hc)) hr

theorem mem_rstrip_of_mem {p : Char → Bool} {c : Char} (hp : p c = false) :
    ∀ {l : PyStr}, c ∈ l → c ∈ rstrip p l := by
  intro l
  induction l with
  | nil => intro h; cases h
  | cons a t ih =>
    intro hmem
    simp only [rstrip, List.isEmpty_iff]
    rcases List.mem_cons.mp hmem with h | h
    · subst h
      by_cases hr : rstrip p t = []
      · simp [hr, hp]
      · simp [hr]
    · have hne : rstrip p t ≠ [] := by
        intro hnil
        have := rstrip_eq_nil_iff.mp hnil c h
        rw [hp] at this; cases this
      simp only [if_neg hne]
      exact List.mem_cons_of_mem a (ih h)

theorem mem_of_mem_rstrip {p : Char → Bool} {c : Char} :
    ∀ {l : PyStr}, c ∈ rstrip p l → c ∈ l := by
  intro l
  induction l with
  | nil => intro h; cases h
  | cons a t ih =>
    intro hmem
    simp only [rstrip, List.isEmpty_iff] at hmem
    by_cases hr : rstrip p t = []
    · rw [if_pos hr] at hmem
      by_cases hp : p a = true
      · rw [if_pos hp] at hmem; cases hmem
      · rw [if_neg hp] at hmem
        rcases List.mem_singleton.mp hmem with h
        exact h ▸ List.mem_cons_self a t
    · rw [if_neg hr] at hmem
      rcases List.mem_cons.mp hmem with h | h
      · exact h ▸ List.mem_cons_self a t
      · exact List.mem_cons_of_mem a (ih h)

theorem mem_dropWhile_of_mem {p : Char → Bool} {c : Char} (hp : p c = false) :
    ∀ {l : PyStr}, c ∈ l → c ∈ l.dropWhile p := by
  intro l
  induction l with
  | nil => intro h; cases h
  | cons a t ih =>
    intro hmem
    by_cases ha : p a = true
    · rw [List.dropWhile_cons_of_pos ha]
      rcases List.mem_cons.mp hmem with h | h
      · subst h; rw [hp] at ha; cases ha
      · exact ih h
    · rw [List.dropWhile_cons_of_neg ha]
      exact hmem

theorem mem_of_mem_dropWhile {p : Char → Bool} {c : Char} {l : PyStr}
    (h : c ∈ l.dropWhile p) : c ∈ l :=
  (List.dropWhile_sublist p (l := l)).mem h

/-- Splitting commutes with removing a leading run of non-separator
characters. -/
theorem splitFirst_dropWhile {p : Char → Bool} {c : Char} (hp : p c = false) :
    ∀ l : PyStr,
      splitFirst c (l.dropWhile p) =
        ((splitFirst c l).1.dropWhile p, (splitFirst c l).2) := by
  intro l
  induction l with
  | nil => simp [splitFirst]
  | cons a t ih =>
    by_cases ha : p a = true
    · have hac : ¬ a = c := fun h => by rw [h, hp] at ha; cases ha
      rw [List.dropWhile_cons_of_pos ha]
      simp only [splitFirst, if_neg hac]
      rw [ih, List.dropWhile_cons_of_pos ha]
    · rw [List.dropWhile_cons_of_neg ha]
      by_cases hac : a = c
      · simp [splitFirst, hac]
      · simp only [splitFirst, if_neg hac]
        rw [List.dropWhile_cons_of_neg ha]

/-- Splitting commutes with removing a trailing run of non-separator
characters, provided the separator occurs in the string. -/
theorem splitFirst_rstrip {p : Char → Bool} {c : Char} (hp : p c = false) :
    ∀ l : PyStr, c ∈ l →
      splitFirst c (rstrip p l) =
        ((splitFirst c l).1, rstrip p (splitFirst c l).2) := by
  intro l
  induction l with
  | nil => intro h; cases h
  | cons a t ih =>
    intro hmem
    by_cases hac : a = c
    · subst hac
      simp only [splitFirst, if_pos rfl]
      simp only [rstrip, List.isEmpty_iff]
      by_cases hr : rstrip p t = []
      · simp [hr, hp, splitFirst]
      · simp [hr, splitFirst]
    · have hct : c ∈ t := by
        rcases List.mem_cons.mp hmem with h | h
        · exact absurd h.symm hac
        · exact h
      have hne : rstrip p t ≠ [] := by
        intro hnil
        have := rstrip_eq_nil_iff.mp hnil c hct
        rw [hp] at this; cases this
      simp only [rstrip, List.isEmpty_iff, if_neg hne]
      simp only [splitFirst, if_neg hac]
      rw [ih hct]

/-- `dropWhile` is idempotent. -/
theorem dropWhile_dropWhile_self (p : Char → Bool) (l : PyStr) :
    (l.dropWhile p).dropWhile p = l.dropWhile p := by
  induction l with
  | nil => simp
  | cons a t ih =>
    by_cases ha : p a = true
    · rw [List.dropWhile_cons_of_pos ha, ih]
    · rw [List.dropWhile_cons_of_neg ha, List.dropWhile_cons_of_neg ha]

/-- `rstrip` is idempotent. -/
theorem rstrip_rstrip_self (p : Char → Bool) (l : PyStr) :
    rstrip p (rstrip p l) = rstrip p l := by
  induction l with
  | nil => simp [rstrip]
  | cons a t ih =>
    simp only [rstrip, List.isEmpty_iff]
    by_cases hr : rstrip p t = []
    · by_cases hp : p a = true
      · simp [hr, hp, rstrip]
      · simp [hr, hp, rstrip]
    · simp only [if_neg hr, rstrip, List.isEmpty_iff, ih, if_neg hr]

/-- Left and right stripping commute. -/
theorem dropWhile_rstrip_comm (p : Char → Bool) (l : PyStr) :
    (rstrip p l).dropWhile p = rstrip p (l.dropWhile p) := by
  induction l with
  | nil => simp [rstrip]
  | cons a t ih =>
    by_cases ha : p a = true
    · rw [List.dropWhile_cons_of_pos ha]
      simp only [rstrip, List.isEmpty_iff]
      by_cases hr : rstrip p t = []
      · have hall := rstrip_eq_nil_iff.mp hr
        have : t.dropWhile p = [] := List.dropWhile_eq_nil_iff.mpr hall
        simp [hr, ha, this, rstrip]
      · rw [if_neg hr, List.dropWhile_cons_of_pos ha, ih]
    · rw [List.dropWhile_cons_of_neg ha]
      simp only [rstrip, List.isEmpty_iff]
      by_cases hr : rstrip p t = []
      · simp [hr, ha, List.dropWhile_cons_of_neg ha]
      · rw [if_neg hr, List.dropWhile_cons_of_neg ha]

/-- Comma membership survives stripping. -/
theorem comma_mem_pyStrip_iff {s : PyStr} :
    (',' : Char) ∈ pyStrip s ↔ (',' : Char) ∈ s := by
  have hws : Char.isWhitespace ',' = false := by decide
  constructor
  · intro h
    exact mem_of_mem_rstrip (mem_of_mem_dropWhile h)
  · intro h
    exact mem_dropWhile_of_mem hws (mem_rstrip_of_mem hws h)

/-- Stripping an already left-stripped string. -/
theorem pyStrip_dropWhile (l : PyStr) :
    pyStrip (l.dropWhile Char.isWhitespace) = pyStrip l := by
  unfold pyStrip
  rw [← dropWhile_rstrip_comm, dropWhile_dropWhile_self]

/-- Stripping an already right-stripped string. -/
theorem pyStrip_rstrip (l : PyStr) :
    pyStrip (rstrip Char.isWhitespace l) = pyStrip l := by
  unfold pyStrip
  rw [rstrip_rstrip_self]

/-- How the parts of the comma split of a stripped string relate to the
parts of the comma split of the raw string. -/
theorem splitFirst_pyStrip {s : PyStr} (hc : (',' : Char) ∈ s) :
    splitFirst ',' (pyStrip s) =
      (((splitFirst ',' s).1.dropWhile Char.isWhitespace),
        rstrip Char.isWhitespace (splitFirst ',' s).2) := by
  have hws : Char.isWhitespace ',' = false := by decide
  unfold pyStrip
  rw [splitFirst_dropWhile hws, splitFirst_rstrip hws s hc]

/- ## Data model for fight records -/

/-- One row of the `mma_wtclass.csv` fight-record table.  `none` models a
missing (`NaN`) cell. -/
structure FightRow where
  p1_name : Option PyStr
  p2_name : Option PyStr
  p1_result : Option PyStr
  p2_result : Option PyStr
  decision_group : Option PyStr
  wtClass : Option PyStr
  round : Option Int
deriving DecidableEq, Repr

/-- Embeds `str(row[col]).strip().upper() if pd.notna(row[col]) else ''`
as applied to the result-code columns in `fighter_summary` and
`fighter_wins_by_category_and_method`. -/
def resCode (r : Option PyStr) : PyStr :=
  match r with
  | some s => (pyStrip s).map Char.toUpper
  | none => []

/-- The per-fighter counters of `fighter_summary`, one association list per
`defaultdict(int)` of the source. -/
structure ScanAcc where
  total_fights : List (PyStr × Nat)
  total_wins : List (PyStr × Nat)
  wins_ko : List (PyStr × Nat)
  wins_sub : List (PyStr × Nat)
  wins_dec : List (PyStr × Nat)
  wins_dq : List (PyStr × Nat)
  wins_other : List (PyStr × Nat)
  wins_round1 : List (PyStr × Nat)

/-- The empty tally (`defaultdict(int)` before any update). -/
def initAcc : ScanAcc := ⟨[], [], [], [], [], [], [], []⟩

/-- `tally[k] += 1` on an association list. -/
def bump : List (PyStr × Nat) → PyStr → List (PyStr × Nat)
  | [], k => [(k, 1)]
  | (k', n) :: rest, k =>
    if k' = k then (k', n + 1) :: rest else (k', n) :: bump rest k

/-- `tally.get(k, 0)` / `defaultdict` read on an association list. -/
def getT : List (PyStr × Nat) → PyStr → Nat
  | [], _ => 0
  | (k, n) :: rest, f => if k = f then n else getT rest f

/-- The body of the win branch of the per-fight loop in `fighter_summary`:
bump `total_wins`, `wins_round1` when the fight ended in round 1, and the
method bucket selected by the `if/elif/else` chain on `decision_group`. -/
def winUpdate (acc : ScanAcc) (f : PyStr) (method : Option PyStr)
    (rnd : Option Int) : ScanAcc :=
  let acc := { acc with total_wins := bump acc.total_wins f }
  let acc :=
    if rnd = some 1 then { acc with wins_round1 := bump acc.wins_round1 f }
    else acc
  if method = some "KO/TKO".data then
    { acc with wins_ko := bump acc.wins_ko f }
  else if method = some "Submission".data then
    { acc with wins_sub := bump acc.wins_sub f }
  else if method = some "Decision".data then
    { acc with wins_dec := bump acc.wins_dec f }
  else if method = some "DQ".data then
    { acc with wins_dq := bump acc.wins_dq f }
  else
    { acc with wins_other := bump acc.wins_other f }

/-- The `if fighter is not None: total_fights[fighter] += 1` step of the
loop in `fighter_summary`. -/
def countFight (acc : ScanAcc) (fo : Option PyStr) : ScanAcc :=
  match fo with
  | some f => { acc with total_fights := bump acc.total_fights f }
  | none => acc

/-- One iteration of the `for _, row in df_wt.iterrows()` loop of
`fighter_summary`: count the fight for both (normalizable) names, then
credit the win through the `if p1_res == 'W' ... elif p2_res == 'W' ...`
chain. -/
def updateRow (acc : ScanAcc) (row : FightRow) : ScanAcc :=
  let fighter1 := _normalize_name row.p1_name
  let fighter2 := _normalize_name row.p2_name
  let acc2 := countFight (countFight acc fighter1) fighter2
  if h1 : resCode row.p1_result = ['W'] ∧ fighter1.isSome then
    winUpdate acc2 (fighter1.get h1.2) row.decision_group row.round
  else if h2 : resCode row.p2_result = ['W'] ∧ fighter2.isSome then
    winUpdate acc2 (fighter2.get h2.2) row.decision_group row.round
  else acc2

/-- The full counting loop of `fighter_summary`. -/
def summaryScan (df : List FightRow) : ScanAcc := df.foldl updateRow initAcc

/-- The winner attribution performed by the loop of `fighter_summary`:
the side credited with the win of this record, if any. -/
def summaryWinner (row : FightRow) : Option PyStr :=
  if resCode row.p1_result = ['W'] ∧ (_normalize_name row.p1_name).isSome then
    _normalize_name row.p1_name
  else if resCode row.p2_result = ['W'] ∧ (_normalize_name row.p2_name).isSome then
    _normalize_name row.p2_name
  else none

/-- One row of the `UFC_stats.csv` fighter-statistics table (after the
renaming and numeric coercion of `load_ufc_stats`). -/
structure StatRow where
  fighter_name : PyStr
  Str_Acc_Pct : Option Rat
  TD_Acc_Pct : Option Rat
  Str_Def_Pct : Option Rat
  TD_Def_Pct : Option Rat
  SLpM : Option Rat
  TD_Avg : Option Rat
  Sub_Avg : Option Rat
deriving DecidableEq, Repr

/-- One row of the DataFrame returned by `fighter_summary`, after the
percentage columns are added and the statistics columns are merged in. -/
structure SummaryRow where
  fighter_name : PyStr
  total_fights : Nat
  total_wins : Nat
  win_percent : Rat
  wins_ko : Nat
  wins_sub : Nat
  wins_dec : Nat
  wins_dq : Nat
  wins_other : Nat
  wins_round1 : Nat
  wins_ko_pct : Option Rat
  wins_sub_pct : Option Rat
  wins_dec_pct : Option Rat
  wins_dq_pct : Option Rat
  wins_other_pct : Option Rat
  wins_round1_pct : Option Rat
  TD_Acc_Pct : Option Rat
  Str_Acc_Pct : Option Rat
  SLpM : Option Rat
  TD_Avg : Option Rat
  Sub_Avg : Option Rat
deriving DecidableEq, Repr

/-- Builds the `fighter_summary` row of one fighter: the counter reads and
the `win_percent` expression of the row-building loop, the six percentage
columns added afterwards (`col / total_wins.replace(0, nan) * 100`), and
the five statistics columns of the left merge (`none` when the fighter has
no matching `StatRow`). -/
def mkSummaryRow (acc : ScanAcc) (f : PyStr) (st : Option StatRow) : SummaryRow :=
  let tf := getT acc.total_fights f
  let tw := getT acc.total_wins f
  let pct : Nat → Option Rat := fun cnt =>
    if tw = 0 then none else some ((cnt : Rat) / (tw : Rat) * 100)
  { fighter_name := f
    total_fights := tf
    total_wins := tw
    win_percent := if 0 < tf then (tw : Rat) / (tf : Rat) * 100 else 0
    wins_ko := getT acc.wins_ko f
    wins_sub := getT acc.wins_sub f
    wins_dec := getT acc.wins_dec f
    wins_dq := getT acc.wins_dq f
    wins_other := getT acc.wins_other f
    wins_round1 := getT acc.wins_round1 f
    wins_ko_pct := pct (getT acc.wins_ko f)
    wins_sub_pct := pct (getT acc.wins_sub f)
    wins_dec_pct := pct (getT acc.wins_dec f)
    wins_dq_pct := pct (getT acc.wins_dq f)
    wins_other_pct := pct (getT acc.wins_other f)
    wins_round1_pct := pct (getT acc.wins_round1 f)
    TD_Acc_Pct := st.bind (·.TD_Acc_Pct)
    Str_Acc_Pct := st.bind (·.Str_Acc_Pct)
    SLpM := st.bind (·.SLpM)
    TD_Avg := st.bind (·.TD_Avg)
    Sub_Avg := st.bind (·.Sub_Avg) }

/-- Embeds `fighter_summary` from `src/data_processing.py`: run the
counting loop, build one row per fighter named in either source, add the
percentage columns, and left-merge the statistics columns (a fighter with
several matching statistics rows yields one merged row per match, as in
`pd.merge`). -/
def fighter_summary (df_wt : List FightRow) (df_stats : List StatRow) :
    List SummaryRow :=
  let acc := summaryScan df_wt
  let fighters :=
    (acc.total_fights.map Prod.fst ++ df_stats.map (·.fighter_name)).dedup
  fighters.flatMap fun f =>
    match df_stats.filter (fun s => decide (s.fighter_name = f)) with
    | [] => [mkSummaryRow acc f none]
    | m :: ms => (m :: ms).map fun s => mkSummaryRow acc f (some s)

/- ## fighter_wins_by_category_and_method -/

/-- Occurrence count used to embed `value_counts` / `groupby().size()`:
the number of copies of `m` in `l`. -/
def countOcc {alpha : Type} [DecidableEq alpha] (l : List alpha) (m : alpha) : Nat :=
  l.countP (fun x => decide (x = m))

/-- The record appended to `records` by one iteration of the loop in
`fighter_wins_by_category_and_method`, if any: the winner is the raw name
on the `'W'` side of the `if/elif`, kept only when truthy and when its
normalization is truthy; the weight class and method are carried raw. -/
def winEntryOf (row : FightRow) : Option (PyStr × Option PyStr × Option PyStr) :=
  let winner : Option PyStr :=
    if resCode row.p1_result = ['W'] then row.p1_name
    else if resCode row.p2_result = ['W'] then row.p2_name
    else none
  match winner with
  | none => none
  | some w =>
    if w = [] then none
    else
      match _normalize_name (some w) with
      | none => none
      | some normalized =>
        if normalized = [] then none
        else some (normalized, row.wtClass, row.decision_group)

/-- The `records` list built by `fighter_wins_by_category_and_method`. -/
def winEntries (df : List FightRow) : List (PyStr × Option PyStr × Option PyStr) :=
  df.filterMap winEntryOf

/-- One row of the result of `fighter_wins_by_category_and_method`. -/
structure WinsRow where
  fighter_name : PyStr
  wtClass : PyStr
  metodo : PyStr
  wins : Nat
deriving DecidableEq, Repr

/-- The result of `fighter_wins_by_category_and_method`: the column names
of the returned DataFrame together with its rows. -/
structure WinsDF where
  columns : List String
  rows : List WinsRow
deriving DecidableEq, Repr

/-- The rows `DataFrame.value_counts` keeps in
`fighter_wins_by_category_and_method`: win records whose weight class and
method are both present (`dropna`). -/
def keyedWins (df_wt : List FightRow) : List (PyStr × PyStr × PyStr) :=
  (winEntries df_wt).filterMap fun e =>
    match e.2.1, e.2.2 with
    | some w, some m => some (e.1, w, m)
    | _, _ => none

/-- Embeds `fighter_wins_by_category_and_method` from
`src/data_processing.py`: build the win records, return an empty frame
with the defined columns when there are none, and otherwise count the
distinct `(fighter_name, wtClass, metodo)` triples with
`DataFrame.value_counts` (which drops rows holding a missing value and
sorts by descending count). -/
def fighter_wins_by_category_and_method (df_wt : List FightRow) : WinsDF :=
  let records := winEntries df_wt
  if records.isEmpty then
    ⟨["fighter_name", "wtClass", "metodo", "wins"], []⟩
  else
    let keyed := keyedWins df_wt
    let grouped :=
      keyed.dedup.map fun t => WinsRow.mk t.1 t.2.1 t.2.2 (countOcc keyed t)
    ⟨["fighter_name", "wtClass", "metodo", "wins"],
      List.insertionSort (fun a b => b.wins ≤ a.wins) grouped⟩

/- ## Method-distribution rollups -/

/-- One row of the result of `win_percentages_by_method`. -/
structure MethodRow where
  metodo : PyStr
  quantidade : Nat
  percentual : Rat
deriving DecidableEq, Repr

/-- Embeds `win_percentages_by_method` from `src/data_processing.py`:
`value_counts` of `decision_group` (missing values dropped), percentage
of each method over the summed counts, sorted by descending
percentage. -/
def win_percentages_by_method (df_wt : List FightRow) : List MethodRow :=
  let methods := df_wt.filterMap (·.decision_group)
  let counts := methods.dedup.map fun m => (m, countOcc methods m)
  let total : Nat := (counts.map (·.2)).sum
  let rows := counts.map fun c =>
    MethodRow.mk c.1 c.2 ((c.2 : Rat) / (total : Rat) * 100)
  List.insertionSort (fun a b => b.percentual ≤ a.percentual) rows

/-- One row of the result of `win_percentages_by_weight_and_method`. -/
structure WcMethodRow where
  wtClass : PyStr
  metodo : PyStr
  quantidade : Nat
  percentual : Rat
deriving DecidableEq, Repr

/-- The `(wtClass, decision_group)` keys counted by
`win_percentages_by_weight_and_method`; `groupby` drops rows in which
either key is missing. -/
def wcMethodPairs (df_wt : List FightRow) : List (PyStr × PyStr) :=
  df_wt.filterMap fun r =>
    match r.wtClass, r.decision_group with
    | some w, some m => some (w, m)
    | _, _ => none

/-- Embeds `win_percentages_by_weight_and_method` from
`src/data_processing.py`: group by `(wtClass, decision_group)`, count,
and divide each count by the summed counts of its weight class
(`groupby('wtClass').transform('sum')`). -/
def win_percentages_by_weight_and_method (df_wt : List FightRow) :
    List WcMethodRow :=
  let pairs := wcMethodPairs df_wt
  let grouped := pairs.dedup.map fun p => (p, countOcc pairs p)
  grouped.map fun g =>
    let total : Nat :=
      ((grouped.filter fun g2 => decide (g2.1.1 = g.1.1)).map (·.2)).sum
    WcMethodRow.mk g.1.1 g.1.2 g.2 ((g.2 : Rat) / (total : Rat) * 100)

/- ## Descriptive statistics and metric selection -/

/-- Embeds `pandas.Series.mean()`: the mean of the non-missing values,
missing when every value is missing. -/
def seriesMean (xs : List (Option Rat)) : Option Rat :=
  let v := xs.filterMap id
  if v.isEmpty then none else some (v.sum / (v.length : Rat))

/-- Embeds `pandas.Series.median()`: the middle of the sorted non-missing
values (mean of the two middles for an even count), missing when every
value is missing. -/
def seriesMedian (xs : List (Option Rat)) : Option Rat :=
  let v := List.insertionSort (· ≤ ·) (xs.filterMap id)
  let n := v.length
  if n = 0 then none
  else if n % 2 = 1 then some (v.getD (n / 2) 0)
  else some ((v.getD (n / 2 - 1) 0 + v.getD (n / 2) 0) / 2)

/-- Embeds `summary_fighter_stats` from `src/data_processing.py`: the
dictionary of mean/median entries it builds, in insertion order. -/
def summary_fighter_stats (df_stats : List StatRow) :
    List (String × Option Rat) :=
  [ ("media_precisao_golpes", seriesMean (df_stats.map (·.Str_Acc_Pct))),
    ("mediana_precisao_golpes", seriesMedian (df_stats.map (·.Str_Acc_Pct))),
    ("media_precisao_quedas", seriesMean (df_stats.map (·.TD_Acc_Pct))),
    ("mediana_precisao_quedas", seriesMedian (df_stats.map (·.TD_Acc_Pct))),
    ("media_quedas_por_luta", seriesMean (df_stats.map (·.TD_Avg))),
    ("mediana_quedas_por_luta", seriesMedian (df_stats.map (·.TD_Avg))),
    ("media_golpes_por_minuto", seriesMean (df_stats.map (·.SLpM))),
    ("mediana_golpes_por_minuto", seriesMedian (df_stats.map (·.SLpM))),
    ("media_finalizacao_por_luta", seriesMean (df_stats.map (·.Sub_Avg))),
    ("mediana_finalizacao_por_luta", seriesMedian (df_stats.map (·.Sub_Avg))) ]

/-- A fighter-statistics DataFrame as `top_fighters_by_metric` sees it: a
`fighter_name` column plus named metric columns; each row carries its
metric cells keyed by column name. -/
structure StatsDF where
  metricCols : List String
  rows : List (PyStr × List (String × Option Rat))
deriving DecidableEq, Repr

/-- The column list of a `StatsDF` (`df_stats.columns`). -/
def pdColumns (df : StatsDF) : List String := "fighter_name" :: df.metricCols

/-- The two failure modes of `top_fighters_by_metric`: the explicit
`ValueError` raised by its guard when the metric is not a column, and
the `ValueError` pandas raises inside `sort_values` when the selected
frame carries a duplicated column label — which the source produces for
`metric = 'fighter_name'`, since it selects
`df_stats[['fighter_name', metric]]`. -/
inductive MetricErr
  | not_found (metric : String)
  | duplicate_label (label : String)
deriving DecidableEq, Repr

/-- Embeds `top_fighters_by_metric` from `src/data_processing.py`: raise
(`Except.error`) when the metric is not a column; otherwise select
`fighter_name` and the metric, drop missing values, sort descending and
keep the first `top_n` — where `sort_values` itself raises on the
duplicated column label that the selection produces when
`metric = "fighter_name"`. -/
def top_fighters_by_metric (df_stats : StatsDF) (metric : String)
    (top_n : Nat) : Except MetricErr (List (PyStr × Rat)) :=
  if metric ∈ pdColumns df_stats then
    let subset := df_stats.rows.filterMap fun r =>
      match (r.2.lookup metric).join with
      | some v => some (r.1, v)
      | none => none
    if metric = "fighter_name" then
      Except.error (MetricErr.duplicate_label metric)
    else
      Except.ok ((List.insertionSort (fun a b => b.2 ≤ a.2) subset).take top_n)
  else
    Except.error (MetricErr.not_found metric)

/-- `true` exactly when an `Except` value is a normal return. -/
def isOkB {ε α : Type} : Except ε α → Bool
  | Except.ok _ => true
  | Except.error _ => false

/- ## C1 : the name normalizer -/

/-- C1: the name normalizer maps null/NaN input to null; a raw string
containing a comma is split at its first comma, both parts are trimmed,
and `"First Last"` is returned; every other string is trimmed and
otherwise returned unchanged; in particular
`normalize("Erosa, Julian") = "Julian Erosa"`,
`normalize("Julian Erosa") = "Julian Erosa"`, `normalize(null) = null`. -/
theorem normalize_name_spec (s : PyStr) :
    _normalize_name none = none ∧
    ((',' : Char) ∈ s →
      _normalize_name (some s) =
        some (pyStrip (splitFirst ',' s).2 ++ [' '] ++
          pyStrip (splitFirst ',' s).1)) ∧
    ((',' : Char) ∉ s → _normalize_name (some s) = some (pyStrip s)) ∧
    _normalize_name (some "Erosa, Julian".data) = some "Julian Erosa".data ∧
    _normalize_name (some "Julian Erosa".data) = some "Julian Erosa".data := by
  refine ⟨rfl, ?_, ?_, by decide, by decide⟩
  · intro hc
    have hc' : (',' : Char) ∈ pyStrip s := comma_mem_pyStrip_iff.mpr hc
    simp only [_normalize_name, if_pos hc']
    rw [splitFirst_pyStrip hc]
    rw [pyStrip_rstrip, pyStrip_dropWhile]
  · intro hc
    have hc' : (',' : Char) ∉ pyStrip s := fun h => hc (comma_mem_pyStrip_iff.mp h)
    simp only [_normalize_name, if_neg hc']

/-- Witness for `normalize_name_spec`: both branch hypotheses discharged
at concrete names. -/
theorem normalize_name_spec_witness :
    _normalize_name (some "Erosa, Julian".data) =
      some (pyStrip (splitFirst ',' "Erosa, Julian".data).2 ++ [' '] ++
        pyStrip (splitFirst ',' "Erosa, Julian".data).1) ∧
    _normalize_name (some " Julian Erosa ".data) =
      some (pyStrip " Julian Erosa ".data) :=
  ⟨(normalize_name_spec "Erosa, Julian".data).2.1 (by decide),
    (normalize_name_spec " Julian Erosa ".data).2.2.1 (by decide)⟩

/- ## Tally lemmas for the fighter_summary scan -/

theorem getT_bump (t : List (PyStr × Nat)) (k f : PyStr) :
    getT (bump t k) f = getT t f + (if k = f then 1 else 0) := by
  induction t with
  | nil => simp [bump, getT]
  | cons a rest ih =>
    obtain ⟨k', n⟩ := a
    by_cases hk : k' = k
    · subst hk
      by_cases hf : k' = f
      · subst hf; simp [bump, getT]
      · simp [bump, getT, hf]
    · by_cases hf : k' = f
      · subst hf
        have : ¬ k = k' := fun h => hk h.symm
        simp [bump, getT, hk, this]
      · simp [bump, getT, hk, hf, ih]

/-- The five method buckets of the `if/elif/else` chain on
`decision_group` in `fighter_summary`. -/
inductive MBucket
  | ko | sub | dec | dq | other
deriving DecidableEq, Repr

/-- Which counter the `if/elif/else` chain on `decision_group` bumps. -/
def bucketOf (m : Option PyStr) : MBucket :=
  if m = some "KO/TKO".data then .ko
  else if m = some "Submission".data then .sub
  else if m = some "Decision".data then .dec
  else if m = some "DQ".data then .dq
  else .other

theorem countFight_total_wins (acc : ScanAcc) (fo : Option PyStr) :
    (countFight acc fo).total_wins = acc.total_wins := by
  cases fo <;> rfl

theorem countFight_wins_ko (acc : ScanAcc) (fo : Option PyStr) :
    (countFight acc fo).wins_ko = acc.wins_ko := by
  cases fo <;> rfl

theorem countFight_wins_sub (acc : ScanAcc) (fo : Option PyStr) :
    (countFight acc fo).wins_sub = acc.wins_sub := by
  cases fo <;> rfl

theorem countFight_wins_dec (acc : ScanAcc) (fo : Option PyStr) :
    (countFight acc fo).wins_dec = acc.wins_dec := by
  cases fo <;> rfl

theorem countFight_wins_dq (acc : ScanAcc) (fo : Option PyStr) :
    (countFight acc fo).wins_dq = acc.wins_dq := by
  cases fo <;> rfl

theorem countFight_wins_other (acc : ScanAcc) (fo : Option PyStr) :
    (countFight acc fo).wins_other = acc.wins_other := by
  cases fo <;> rfl

theorem winUpdate_total_wins (acc : ScanAcc) (f : PyStr) (m : Option PyStr)
    (rnd : Option Int) :
    (winUpdate acc f m rnd).total_wins = bump acc.total_wins f := by
  simp only [winUpdate]
  split_ifs <;> rfl

theorem winUpdate_wins_ko (acc : ScanAcc) (f : PyStr) (m : Option PyStr)
    (rnd : Option Int) :
    (winUpdate acc f m rnd).wins_ko =
      if bucketOf m = .ko then bump acc.wins_ko f else acc.wins_ko := by
  simp only [winUpdate, bucketOf]
  split_ifs <;> simp_all

theorem winUpdate_wins_sub (acc : ScanAcc) (f : PyStr) (m : Option PyStr)
    (rnd : Option Int) :
    (winUpdate acc f m rnd).wins_sub =
      if bucketOf m = .sub then bump acc.wins_sub f else acc.wins_sub := by
  simp only [winUpdate, bucketOf]
  split_ifs <;> simp_all

theorem winUpdate_wins_dec (acc : ScanAcc) (f : PyStr) (m : Option PyStr)
    (rnd : Option Int) :
    (winUpdate acc f m rnd).wins_dec =
      if bucketOf m = .dec then bump acc.wins_dec f else acc.wins_dec := by
  simp only [winUpdate, bucketOf]
  split_ifs <;> simp_all

theorem winUpdate_wins_dq (acc : ScanAcc) (f : PyStr) (m : Option PyStr)
    (rnd : Option Int) :
    (winUpdate acc f m rnd).wins_dq =
      if bucketOf m = .dq then bump acc.wins_dq f else acc.wins_dq := by
  simp only [winUpdate, bucketOf]
  split_ifs <;> simp_all

theorem winUpdate_wins_other (acc : ScanAcc) (f : PyStr) (m : Option PyStr)
    (rnd : Option Int) :
    (winUpdate acc f m rnd).wins_other =
      if bucketOf m = .other then bump acc.wins_other f else acc.wins_other := by
  simp only [winUpdate, bucketOf]
  split_ifs <;> simp_all

/-- The method-bucket counter of the scan state selected by `b`. -/
def bucketSel (b : MBucket) (acc : ScanAcc) : List (PyStr × Nat) :=
  match b with
  | .ko => acc.wins_ko
  | .sub => acc.wins_sub
  | .dec => acc.wins_dec
  | .dq => acc.wins_dq
  | .other => acc.wins_other

theorem countFight_bucketSel (b : MBucket) (acc : ScanAcc) (fo : Option PyStr) :
    bucketSel b (countFight acc fo) = bucketSel b acc := by
  cases b <;> cases fo <;> rfl

theorem winUpdate_bucketSel (b : MBucket) (acc : ScanAcc) (f : PyStr)
    (m : Option PyStr) (rnd : Option Int) :
    bucketSel b (winUpdate acc f m rnd) =
      if bucketOf m = b then bump (bucketSel b acc) f else bucketSel b acc := by
  cases b <;>
    simp only [bucketSel, winUpdate_wins_ko, winUpdate_wins_sub,
      winUpdate_wins_dec, winUpdate_wins_dq, winUpdate_wins_other]

theorem updateRow_total_wins_getT (acc : ScanAcc) (r : FightRow) (f : PyStr) :
    getT ((updateRow acc r).total_wins) f =
      getT acc.total_wins f + (if summaryWinner r = some f then 1 else 0) := by
  simp only [updateRow]
  by_cases h1 : resCode r.p1_result = ['W'] ∧ (_normalize_name r.p1_name).isSome
  · obtain ⟨v, hv⟩ := Option.isSome_iff_exists.mp h1.2
    rw [dif_pos h1, winUpdate_total_wins, countFight_total_wins,
      countFight_total_wins, getT_bump]
    have hw : summaryWinner r = some v := by
      simp [summaryWinner, hv, h1.1]
    rw [hw]
    simp only [hv, Option.get_some, Option.some.injEq]
  · rw [dif_neg h1]
    by_cases h2 : resCode r.p2_result = ['W'] ∧ (_normalize_name r.p2_name).isSome
    · obtain ⟨v, hv⟩ := Option.isSome_iff_exists.mp h2.2
      rw [dif_pos h2, winUpdate_total_wins, countFight_total_wins,
        countFight_total_wins, getT_bump]
      have hw : summaryWinner r = some v := by
        simp [summaryWinner, hv, h1, h2.1]
      rw [hw]
      simp only [hv, Option.get_some, Option.some.injEq]
    · rw [dif_neg h2, countFight_total_wins, countFight_total_wins]
      have hw : summaryWinner r = none := by
        simp [summaryWinner, h1, h2]
      rw [hw]
      simp

theorem updateRow_bucketSel_getT (b : MBucket) (acc : ScanAcc) (r : FightRow)
    (f : PyStr) :
    getT (bucketSel b (updateRow acc r)) f =
      getT (bucketSel b acc) f +
        (if summaryWinner r = some f ∧ bucketOf r.decision_group = b
          then 1 else 0) := by
  simp only [updateRow]
  by_cases h1 : resCode r.p1_result = ['W'] ∧ (_normalize_name r.p1_name).isSome
  · obtain ⟨v, hv⟩ := Option.isSome_iff_exists.mp h1.2
    rw [dif_pos h1, winUpdate_bucketSel, countFight_bucketSel,
      countFight_bucketSel]
    have hw : summaryWinner r = some v := by
      simp [summaryWinner, hv, h1.1]
    rw [hw]
    by_cases hb : bucketOf r.decision_group = b
    · rw [if_pos hb, getT_bump]
      simp only [hv, Option.get_some, Option.some.injEq, hb, and_true]
    · rw [if_neg hb]
      simp [hb]
  · rw [dif_neg h1]
    by_cases h2 : resCode r.p2_result = ['W'] ∧ (_normalize_name r.p2_name).isSome
    · obtain ⟨v, hv⟩ := Option.isSome_iff_exists.mp h2.2
      rw [dif_pos h2, winUpdate_bucketSel, countFight_bucketSel,
        countFight_bucketSel]
      have hw : summaryWinner r = some v := by
        simp [summaryWinner, hv, h1, h2.1]
      rw [hw]
      by_cases hb : bucketOf r.decision_group = b
      · rw [if_pos hb, getT_bump]
        simp only [hv, Option.get_some, Option.some.injEq, hb, and_true]
      · rw [if_neg hb]
        simp [hb]
    · rw [dif_neg h2, countFight_bucketSel, countFight_bucketSel]
      have hw : summaryWinner r = none := by
        simp [summaryWinner, h1, h2]
      rw [hw]
      simp

/-- Counting along the scan: any counter whose per-row increment is
described by `p` ends up holding, for each fighter, the number of rows
satisfying `p`. -/
theorem scan_getT (sel : ScanAcc → List (PyStr × Nat))
    (p : FightRow → PyStr → Bool)
    (hstep : ∀ acc r f, getT (sel (updateRow acc r)) f =
      getT (sel acc) f + (if p r f then 1 else 0)) :
    ∀ (df : List FightRow) (acc : ScanAcc) (f : PyStr),
      getT (sel (df.foldl updateRow acc)) f =
        getT (sel acc) f + df.countP (fun r => p r f) := by
  intro df
  induction df with
  | nil => intro acc f; simp
  | cons r t ih =>
    intro acc f
    rw [List.foldl_cons, ih, hstep, List.countP_cons]
    cases hp : p r f <;> simp [hp] <;> omega

theorem scan_total_wins (df : List FightRow) (f : PyStr) :
    getT (summaryScan df).total_wins f =
      df.countP (fun r => decide (summaryWinner r = some f)) := by
  have h := scan_getT (fun a => a.total_wins)
    (fun r f => decide (summaryWinner r = some f))
    (fun acc r f => by
      simp only [decide_eq_true_eq]
      exact updateRow_total_wins_getT acc r f)
    df initAcc f
  simpa [summaryScan, initAcc, getT] using h

theorem scan_bucket (b : MBucket) (df : List FightRow) (f : PyStr) :
    getT (bucketSel b (summaryScan df)) f =
      df.countP (fun r =>
        decide (summaryWinner r = some f ∧ bucketOf r.decision_group = b)) := by
  have h := scan_getT (bucketSel b)
    (fun r f => decide (summaryWinner r = some f ∧ bucketOf r.decision_group = b))
    (fun acc r f => by
      simp only [decide_eq_true_eq]
      exact updateRow_bucketSel_getT b acc r f)
    df initAcc f
  have hinit : getT (bucketSel b initAcc) f = 0 := by
    cases b <;> simp [bucketSel, initAcc, getT]
  rw [summaryScan]
  omega

/-- Every row of `fighter_summary` output is the row built for some
fighter and optional matching statistics row. -/
theorem mem_fighter_summary {df : List FightRow} {stats : List StatRow}
    {row : SummaryRow} (h : row ∈ fighter_summary df stats) :
    ∃ f st, row = mkSummaryRow (summaryScan df) f st := by
  simp only [fighter_summary, List.mem_flatMap] at h
  obtain ⟨f, hf, hrow⟩ := h
  rcases hfil : stats.filter (fun s => decide (s.fighter_name = f)) with _ | ⟨m, ms⟩
  · rw [hfil] at hrow
    exact ⟨f, none, List.mem_singleton.mp hrow⟩
  · rw [hfil] at hrow
    rcases List.mem_map.mp hrow with ⟨s, _, hs⟩
    exact ⟨f, some s, hs.symm⟩

/-- The five bucket counts partition the win count. -/
theorem countP_bucket_sum (df : List FightRow) (f : PyStr) :
    df.countP (fun r => decide (summaryWinner r = some f ∧
        bucketOf r.decision_group = MBucket.ko)) +
      df.countP (fun r => decide (summaryWinner r = some f ∧
        bucketOf r.decision_group = MBucket.sub)) +
      df.countP (fun r => decide (summaryWinner r = some f ∧
        bucketOf r.decision_group = MBucket.dec)) +
      df.countP (fun r => decide (summaryWinner r = some f ∧
        bucketOf r.decision_group = MBucket.dq)) +
      df.countP (fun r => decide (summaryWinner r = some f ∧
        bucketOf r.decision_group = MBucket.other)) =
      df.countP (fun r => decide (summaryWinner r = some f)) := by
  induction df with
  | nil => simp
  | cons r t ih =>
    simp only [List.countP_cons]
    have key :
        (if decide (summaryWinner r = some f ∧
            bucketOf r.decision_group = MBucket.ko) then (1 : Nat) else 0) +
          (if decide (summaryWinner r = some f ∧
            bucketOf r.decision_group = MBucket.sub) then (1 : Nat) else 0) +
          (if decide (summaryWinner r = some f ∧
            bucketOf r.decision_group = MBucket.dec) then (1 : Nat) else 0) +
          (if decide (summaryWinner r = some f ∧
            bucketOf r.decision_group = MBucket.dq) then (1 : Nat) else 0) +
          (if decide (summaryWinner r = some f ∧
            bucketOf r.decision_group = MBucket.other) then (1 : Nat) else 0) =
          (if decide (summaryWinner r = some f) then (1 : Nat) else 0) := by
      by_cases hw : summaryWinner r = some f
      · rcases hbb : bucketOf r.decision_group <;> simp [hw, hbb]
      · simp [hw]
    omega

/- ## C10 : method win counts partition total wins -/

/-- C10: in every `fighter_summary` row the five per-method win counts
(KO/TKO, Submission, Decision, DQ, Other) sum exactly to the row's total
win count: each counted win lands in exactly one bucket, with Other
absorbing any unrecognized or missing method. -/
theorem summary_method_counts_sum (df : List FightRow) (stats : List StatRow)
    (row : SummaryRow) (h : row ∈ fighter_summary df stats) :
    row.wins_ko + row.wins_sub + row.wins_dec + row.wins_dq + row.wins_other =
      row.total_wins := by
  obtain ⟨f, st, rfl⟩ := mem_fighter_summary h
  have hko : getT (summaryScan df).wins_ko f = df.countP (fun r =>
      decide (summaryWinner r = some f ∧ bucketOf r.decision_group = MBucket.ko)) :=
    scan_bucket .ko df f
  have hsub : getT (summaryScan df).wins_sub f = df.countP (fun r =>
      decide (summaryWinner r = some f ∧ bucketOf r.decision_group = MBucket.sub)) :=
    scan_bucket .sub df f
  have hdec : getT (summaryScan df).wins_dec f = df.countP (fun r =>
      decide (summaryWinner r = some f ∧ bucketOf r.decision_group = MBucket.dec)) :=
    scan_bucket .dec df f
  have hdq : getT (summaryScan df).wins_dq f = df.countP (fun r =>
      decide (summaryWinner r = some f ∧ bucketOf r.decision_group = MBucket.dq)) :=
    scan_bucket .dq df f
  have hoth : getT (summaryScan df).wins_other f = df.countP (fun r =>
      decide (summaryWinner r = some f ∧ bucketOf r.decision_group = MBucket.other)) :=
    scan_bucket .other df f
  have htot := scan_total_wins df f
  have hsum := countP_bucket_sum df f
  simp only [mkSummaryRow]
  rw [hko, hsub, hdec, hdq, hoth, htot]
  exact hsum

/-- Example fight record: `"Doe, John"` beats `"Ann Lee"` by KO/TKO in
round 2. -/
def exRow1 : FightRow :=
  { p1_name := some "Doe, John".data
    p2_name := some "Ann Lee".data
    p1_result := some "W".data
    p2_result := some "L".data
    decision_group := some "KO/TKO".data
    wtClass := some "Lightweight".data
    round := some 2 }

/-- Witness for `summary_method_counts_sum` at a concrete record set. -/
theorem summary_method_counts_sum_witness :
    mkSummaryRow (summaryScan [exRow1]) "John Doe".data none ∈
        fighter_summary [exRow1] [] ∧
      (mkSummaryRow (summaryScan [exRow1]) "John Doe".data none).wins_ko +
          (mkSummaryRow (summaryScan [exRow1]) "John Doe".data none).wins_sub +
          (mkSummaryRow (summaryScan [exRow1]) "John Doe".data none).wins_dec +
          (mkSummaryRow (summaryScan [exRow1]) "John Doe".data none).wins_dq +
          (mkSummaryRow (summaryScan [exRow1]) "John Doe".data none).wins_other =
        (mkSummaryRow (summaryScan [exRow1]) "John Doe".data none).total_wins :=
  ⟨by decide, summary_method_counts_sum [exRow1] [] _ (by decide)⟩

/- ## C5 : percentage fields of fighter_summary -/

/-- C5: in every `fighter_summary` row, `win_percent` is
`total_wins / total_fights * 100` when there are fights and `0` when
there are none, and each per-method percentage is
`method wins / total_wins * 100` when there are wins and null (not 0)
when there are none. -/
theorem summary_percent_fields (df : List FightRow) (stats : List StatRow)
    (row : SummaryRow) (h : row ∈ fighter_summary df stats) :
    (0 < row.total_fights →
      row.win_percent =
        (row.total_wins : Rat) / (row.total_fights : Rat) * 100) ∧
    (row.total_fights = 0 → row.win_percent = 0) ∧
    (0 < row.total_wins →
      row.wins_ko_pct = some ((row.wins_ko : Rat) / (row.total_wins : Rat) * 100) ∧
      row.wins_sub_pct = some ((row.wins_sub : Rat) / (row.total_wins : Rat) * 100) ∧
      row.wins_dec_pct = some ((row.wins_dec : Rat) / (row.total_wins : Rat) * 100) ∧
      row.wins_dq_pct = some ((row.wins_dq : Rat) / (row.total_wins : Rat) * 100) ∧
      row.wins_other_pct =
        some ((row.wins_other : Rat) / (row.total_wins : Rat) * 100)) ∧
    (row.total_wins = 0 →
      row.wins_ko_pct = none ∧ row.wins_sub_pct = none ∧
      row.wins_dec_pct = none ∧ row.wins_dq_pct = none ∧
      row.wins_other_pct = none) := by
  obtain ⟨f, st, rfl⟩ := mem_fighter_summary h
  simp only [mkSummaryRow]
  refine ⟨?_, ?_, ?_, ?_⟩
  · intro htf
    rw [if_pos htf]
  · intro htf
    rw [if_neg (by omega)]
  · intro htw
    have hne : ¬ getT (summaryScan df).total_wins f = 0 := by omega
    simp [hne]
  · intro htw
    simp [htw]

/-- The `fighter_summary` row for the winner of `exRow1`. -/
def exSummaryRow1 : SummaryRow :=
  mkSummaryRow (summaryScan [exRow1]) "John Doe".data none

/-- Witness for `summary_percent_fields` at a concrete record set. -/
theorem summary_percent_fields_witness :
    0 < exSummaryRow1.total_fights ∧
    exSummaryRow1.win_percent =
      (exSummaryRow1.total_wins : Rat) / (exSummaryRow1.total_fights : Rat) * 100 :=
  ⟨by decide,
    (summary_percent_fields [exRow1] [] exSummaryRow1 (by decide)).1 (by decide)⟩

/- ## C2 : both result codes `"W"` -/

/-- How one row changes the `total_wins` tally, at list level. -/
theorem updateRow_total_wins_list (acc : ScanAcc) (r : FightRow) :
    (updateRow acc r).total_wins =
      match summaryWinner r with
      | some v => bump acc.total_wins v
      | none => acc.total_wins := by
  simp only [updateRow]
  by_cases h1 : resCode r.p1_result = ['W'] ∧ (_normalize_name r.p1_name).isSome
  · obtain ⟨v, hv⟩ := Option.isSome_iff_exists.mp h1.2
    rw [dif_pos h1, winUpdate_total_wins, countFight_total_wins,
      countFight_total_wins]
    have hw : summaryWinner r = some v := by
      simp [summaryWinner, hv, h1.1]
    rw [hw]
    simp [hv]
  · rw [dif_neg h1]
    by_cases h2 : resCode r.p2_result = ['W'] ∧ (_normalize_name r.p2_name).isSome
    · obtain ⟨v, hv⟩ := Option.isSome_iff_exists.mp h2.2
      rw [dif_pos h2, winUpdate_total_wins, countFight_total_wins,
        countFight_total_wins]
      have hw : summaryWinner r = some v := by
        simp [summaryWinner, hv, h1, h2.1]
      rw [hw]
      simp [hv]
    · rw [dif_neg h2, countFight_total_wins, countFight_total_wins]
      have hw : summaryWinner r = none := by
        simp [summaryWinner, h1, h2]
      rw [hw]

/-- A record in which both result codes normalize to `"W"` but side 1 has
no name. -/
def exRow2 : FightRow :=
  { p1_name := none
    p2_name := some "Bob Lee".data
    p1_result := some "W".data
    p2_result := some "W".data
    decision_group := some "KO/TKO".data
    wtClass := some "LW".data
    round := some 1 }

/-- Counterexample to C2 as stated: in this record both result codes are
`"W"`, yet `fighter_summary` credits the win to side 2 (`"Bob Lee"`),
because side 1's name normalizes to null. -/
theorem both_w_p2_credited :
    resCode exRow2.p1_result = ['W'] ∧ resCode exRow2.p2_result = ['W'] ∧
    (fighter_summary [exRow2] []).map (fun r => (r.fighter_name, r.total_wins)) =
      [("Bob Lee".data, 1)] := by decide

/-- C2 (amended): when both result codes normalize to `"W"`,
`fighter_summary` credits side 1 whenever side 1's name normalizes
non-null and otherwise falls back to side 2;
`fighter_wins_by_category_and_method` only ever records side 1's name;
and in both views the record contributes at most one win in total, never
one to each side. -/
theorem both_w_single_side (r : FightRow)
    (h1 : resCode r.p1_result = ['W']) (h2 : resCode r.p2_result = ['W']) :
    summaryWinner r =
      (if (_normalize_name r.p1_name).isSome then _normalize_name r.p1_name
        else _normalize_name r.p2_name) ∧
    (∀ e ∈ winEntries [r], some e.1 = _normalize_name r.p1_name) ∧
    ((summaryScan [r]).total_wins.map Prod.snd).sum ≤ 1 ∧
    (winEntries [r]).length ≤ 1 := by
  refine ⟨?_, ?_, ?_, ?_⟩
  · by_cases ha : (_normalize_name r.p1_name).isSome
    · simp [summaryWinner, h1, h2, ha]
    · by_cases hb : (_normalize_name r.p2_name).isSome
      · simp [summaryWinner, h1, h2, ha, hb]
      · simp [summaryWinner, h1, h2, ha, hb,
          Option.not_isSome_iff_eq_none.mp hb]
  · intro e he
    simp only [winEntries, List.filterMap_cons, List.filterMap_nil] at he
    rcases hw : winEntryOf r with _ | e'
    · simp [hw] at he
    · simp only [hw] at he
      have he' : e = e' := by simpa using he
      subst he'
      simp only [winEntryOf, if_pos h1] at hw
      rcases hp1 : r.p1_name with _ | w
      · simp [hp1] at hw
      · simp only [hp1] at hw
        by_cases hwnil : w = []
        · simp [hwnil] at hw
        · rw [if_neg hwnil] at hw
          rcases hn : _normalize_name (some w) with _ | nz
          · simp [hn] at hw
          · simp only [hn] at hw
            by_cases hnz : nz = []
            · simp [hnz] at hw
            · rw [if_neg hnz] at hw
              cases hw
              rfl
  · show ((List.foldl updateRow initAcc [r]).total_wins.map Prod.snd).sum ≤ 1
    rw [List.foldl_cons, List.foldl_nil, updateRow_total_wins_list]
    rcases summaryWinner r with _ | v
    · simp [initAcc]
    · simp [initAcc, bump]
  · simp only [winEntries, List.filterMap_cons, List.filterMap_nil]
    rcases winEntryOf r with _ | e <;> simp

/-- Witness for `both_w_single_side` at a concrete both-`"W"` record. -/
theorem both_w_single_side_witness :
    summaryWinner exRow2 =
      (if (_normalize_name exRow2.p1_name).isSome then _normalize_name exRow2.p1_name
        else _normalize_name exRow2.p2_name) ∧
    ((summaryScan [exRow2]).total_wins.map Prod.snd).sum ≤ 1 :=
  ⟨(both_w_single_side exRow2 (by decide) (by decide)).1,
    (both_w_single_side exRow2 (by decide) (by decide)).2.2.1⟩

/- ## C8 : empty input to fighter_wins_by_category_and_method -/

/-- C8: on an empty record set, or any record set yielding no win
records, `fighter_wins_by_category_and_method` returns an empty result
that still carries the defined columns (the embedding is a total
function, so no exception is possible). -/
theorem wins_by_category_and_method_empty (df : List FightRow)
    (h : winEntries df = []) :
    fighter_wins_by_category_and_method df =
      WinsDF.mk ["fighter_name", "wtClass", "metodo", "wins"] [] := by
  simp [fighter_wins_by_category_and_method, h]

/-- Witness for `wins_by_category_and_method_empty` on the empty set. -/
theorem wins_by_category_and_method_empty_witness :
    winEntries [] = [] ∧
    fighter_wins_by_category_and_method [] =
      WinsDF.mk ["fighter_name", "wtClass", "metodo", "wins"] [] :=
  ⟨rfl, wins_by_category_and_method_empty [] rfl⟩

/- ## C9 : unknown metric fails fast -/

instance {eps alpha : Type} [DecidableEq eps] [DecidableEq alpha] :
    DecidableEq (Except eps alpha) := fun x y =>
  match x, y with
  | .ok a, .ok b =>
    if h : a = b then isTrue (by rw [h])
    else isFalse (by intro hc; cases hc; exact h rfl)
  | .error a, .error b =>
    if h : a = b then isTrue (by rw [h])
    else isFalse (by intro hc; cases hc; exact h rfl)
  | .ok _, .error _ => isFalse (by intro hc; cases hc)
  | .error _, .ok _ => isFalse (by intro hc; cases hc)

/-- A one-fighter statistics table with a single metric column. -/
def exStatsDF : StatsDF :=
  { metricCols := ["Str_Acc_Pct"]
    rows := [("John Doe".data, [("Str_Acc_Pct", some 50)])] }

/-- Counterexample to C9 as stated: `"fighter_name"` is a present
column, yet `top_fighters_by_metric` does not return normally there —
the selection duplicates the `fighter_name` label and `sort_values`
raises — so the operation does not raise for exactly the absent metric
names. -/
theorem top_fighters_present_column_raises :
    "fighter_name" ∈ pdColumns exStatsDF ∧
    top_fighters_by_metric exStatsDF "fighter_name" 10 =
      Except.error (MetricErr.duplicate_label "fighter_name") := by decide

/-- C9 (amended): the unknown-metric `ValueError` of
`top_fighters_by_metric` is raised exactly when the requested metric is
not a column of the statistics table; every present metric other than
`fighter_name` returns normally, while `metric = "fighter_name"` raises
the duplicated-column-label error from `sort_values` instead. -/
theorem top_fighters_raises_characterization (df : StatsDF)
    (metric : String) (top_n : Nat) :
    (top_fighters_by_metric df metric top_n =
        Except.error (MetricErr.not_found metric) ↔
      metric ∉ pdColumns df) ∧
    isOkB (top_fighters_by_metric df metric top_n) =
      (decide (metric ∈ pdColumns df) && decide (metric ≠ "fighter_name")) := by
  constructor
  · by_cases h : metric ∈ pdColumns df
    · by_cases hf : metric = "fighter_name"
      · subst hf
        simp [top_fighters_by_metric, h]
      · simp [top_fighters_by_metric, h, hf]
    · simp [top_fighters_by_metric, h]
  · by_cases h : metric ∈ pdColumns df
    · by_cases hf : metric = "fighter_name"
      · subst hf
        simp [top_fighters_by_metric, isOkB, h]
      · simp [top_fighters_by_metric, isOkB, h, hf]
    · simp [top_fighters_by_metric, isOkB, h]

/- ## C6 : global method distribution denominator -/

/-- A decided fight: `"A B"` beats `"C D"` by KO/TKO. -/
def exRow3 : FightRow :=
  { p1_name := some "A B".data
    p2_name := some "C D".data
    p1_result := some "W".data
    p2_result := some "L".data
    decision_group := some "KO/TKO".data
    wtClass := some "LW".data
    round := some 1 }

/-- A record with a missing method (`decision_group` NaN). -/
def exRow4 : FightRow :=
  { p1_name := some "E F".data
    p2_name := some "G H".data
    p1_result := some "W".data
    p2_result := some "L".data
    decision_group := none
    wtClass := some "LW".data
    round := some 1 }

/-- Counterexample to C6 as stated: on a two-record input in which one
record's method is missing, the single output row carries percentage
100, whereas dividing its count by the total record count would give
1/2*100 = 50. -/
theorem method_pct_total_denominator_fails :
    win_percentages_by_method [exRow3, exRow4] =
      [MethodRow.mk "KO/TKO".data 1 100] ∧
    ([exRow3, exRow4] : List FightRow).length = 2 ∧
    ((1 : Rat) / 2 * 100 : Rat) ≠ (100 : Rat) := by decide

/-- C6 (amended): in `win_percentages_by_method` every row's percentage
equals its count divided by the number of records with a non-missing
method (`value_counts` drops NaN), times 100. -/
theorem method_pct_nonnull_denominator (df : List FightRow) (row : MethodRow)
    (h : row ∈ win_percentages_by_method df) :
    row.percentual = (row.quantidade : Rat) /
      ((df.filterMap (·.decision_group)).length : Rat) * 100 := by
  simp only [win_percentages_by_method] at h
  rw [List.mem_insertionSort] at h
  rcases List.mem_map.mp h with ⟨c, hc, rfl⟩
  have htot : (((df.filterMap (·.decision_group)).dedup.map
        (fun m => (m, countOcc (df.filterMap (·.decision_group)) m))).map (·.2)).sum =
      (df.filterMap (·.decision_group)).length := by
    rw [List.map_map]
    rw [show ((fun x : PyStr × Nat => x.2) ∘
        fun m => (m, countOcc (df.filterMap (·.decision_group)) m)) =
        (fun m => countOcc (df.filterMap (·.decision_group)) m) from rfl]
    rw [show (fun m => countOcc (df.filterMap (·.decision_group)) m) =
        (fun m => @List.count PyStr instBEqOfDecidableEq m
          (df.filterMap (·.decision_group))) from rfl]
    exact List.sum_map_count_dedup_eq_length (df.filterMap (·.decision_group))
  simp only [htot]

/-- Witness for `method_pct_nonnull_denominator` at a concrete input. -/
theorem method_pct_nonnull_denominator_witness :
    MethodRow.mk "KO/TKO".data 1 100 ∈ win_percentages_by_method [exRow3] ∧
    (MethodRow.mk "KO/TKO".data 1 100).percentual =
      ((MethodRow.mk "KO/TKO".data 1 100).quantidade : Rat) /
        (([exRow3].filterMap (·.decision_group)).length : Rat) * 100 :=
  ⟨by decide, method_pct_nonnull_denominator [exRow3] _ (by decide)⟩

/- ## C7 : per-weight-class method distribution -/

/-- The within-class denominator used by
`win_percentages_by_weight_and_method` is the number of grouped pairs of
that weight class. -/
theorem wc_total_eq_countP (pairs : List (PyStr × PyStr)) (wc : PyStr) :
    (((pairs.dedup.map fun p => (p, countOcc pairs p)).filter
        (fun g2 => decide (g2.1.1 = wc))).map (·.2)).sum =
      pairs.countP (fun p => decide (p.1 = wc)) := by
  rw [List.filter_map, List.map_map]
  rw [show ((fun g2 : (PyStr × PyStr) × Nat => decide (g2.1.1 = wc)) ∘
      fun p => (p, countOcc pairs p)) =
      (fun p : PyStr × PyStr => decide (p.1 = wc)) from rfl]
  rw [show ((fun x : (PyStr × PyStr) × Nat => x.2) ∘
      fun p => (p, countOcc pairs p)) =
      (fun p => @List.count (PyStr × PyStr) instBEqOfDecidableEq p pairs) from rfl]
  exact List.sum_map_count_dedup_filter_eq_countP _ pairs

/-- C7 (amended): every row of `win_percentages_by_weight_and_method`
has percentage `count / (records of that weight class with a non-missing
method and class) * 100`, and within each weight class that appears the
percentages sum to exactly 100. -/
theorem wc_method_pct_spec (df : List FightRow) :
    (∀ row ∈ win_percentages_by_weight_and_method df,
      row.percentual = (row.quantidade : Rat) /
        ((wcMethodPairs df).countP (fun p => decide (p.1 = row.wtClass)) : Rat) *
          100) ∧
    (∀ wc : PyStr,
      0 < (wcMethodPairs df).countP (fun p => decide (p.1 = wc)) →
      (((win_percentages_by_weight_and_method df).filter
          (fun row => decide (row.wtClass = wc))).map (·.percentual)).sum =
        100) := by
  constructor
  · intro row h
    simp only [win_percentages_by_weight_and_method] at h
    rcases List.mem_map.mp h with ⟨g, hg, rfl⟩
    simp only [wc_total_eq_countP]
  · intro wc hwc
    simp only [win_percentages_by_weight_and_method]
    rw [List.filter_map, List.map_map]
    simp only [Function.comp_def]
    have hTne : ((wcMethodPairs df).countP
        (fun p => decide (p.1 = wc)) : Rat) ≠ 0 := by
      exact_mod_cast Nat.pos_iff_ne_zero.mp hwc
    rw [List.map_congr_left (g := fun g : (PyStr × PyStr) × Nat =>
        (g.2 : Rat) * (100 /
          ((wcMethodPairs df).countP (fun p => decide (p.1 = wc)) : Rat)))
      (fun g hgmem => by
        have hcls : g.1.1 = wc := by
          have hdec := (List.mem_filter.mp hgmem).2
          simpa using hdec
        rw [hcls, wc_total_eq_countP, div_mul_eq_mul_div, mul_div_assoc])]
    rw [List.sum_map_mul_right]
    rw [show (fun g : (PyStr × PyStr) × Nat => (g.2 : Rat)) =
        (Nat.cast ∘ (fun g : (PyStr × PyStr) × Nat => g.2)) from rfl]
    rw [← List.map_map, ← Nat.cast_list_sum]
    rw [show (fun g : (PyStr × PyStr) × Nat => g.2) =
        (fun x : (PyStr × PyStr) × Nat => x.2) from rfl]
    rw [wc_total_eq_countP]
    rw [mul_comm]
    exact div_mul_cancel₀ 100 hTne

/-- Counterexample to C7 as stated: `exRow3` and `exRow4` are both in
weight class `"LW"`, but `exRow4`'s method is missing, so the single
output row shows 100 instead of `1 / 2 * 100 = 50` — the denominator is
not the total record count within the weight class. -/
theorem wc_pct_class_denominator_fails :
    win_percentages_by_weight_and_method [exRow3, exRow4] =
      [WcMethodRow.mk "LW".data "KO/TKO".data 1 100] ∧
    (([exRow3, exRow4] : List FightRow).filter
      (fun r => decide (r.wtClass = some "LW".data))).length = 2 ∧
    ((1 : Rat) / 2 * 100) ≠ (100 : Rat) := by decide

/-- Witness for `wc_method_pct_spec` at a concrete input. -/
theorem wc_method_pct_spec_witness :
    WcMethodRow.mk "LW".data "KO/TKO".data 1 100 ∈
        win_percentages_by_weight_and_method [exRow3] ∧
    (WcMethodRow.mk "LW".data "KO/TKO".data 1 100).percentual =
      ((WcMethodRow.mk "LW".data "KO/TKO".data 1 100).quantidade : Rat) /
        ((wcMethodPairs [exRow3]).countP (fun p => decide (p.1 =
          (WcMethodRow.mk "LW".data "KO/TKO".data 1 100).wtClass)) : Rat) * 100 ∧
    0 < (wcMethodPairs [exRow3]).countP (fun p => decide (p.1 = "LW".data)) ∧
    (((win_percentages_by_weight_and_method [exRow3]).filter
        (fun row => decide (row.wtClass = "LW".data))).map (·.percentual)).sum =
      100 :=
  ⟨by decide,
    (wc_method_pct_spec [exRow3]).1 _ (by decide),
    by decide,
    (wc_method_pct_spec [exRow3]).2 "LW".data (by decide)⟩

/- ## C4 : descriptive statistics summary -/

/-- A statistics row with all metric cells present. -/
def exStatA : StatRow :=
  { fighter_name := "John Doe".data
    Str_Acc_Pct := some 50
    TD_Acc_Pct := some 30
    Str_Def_Pct := some 10
    TD_Def_Pct := some 20
    SLpM := some 3
    TD_Avg := some 1
    Sub_Avg := some 1 }

/-- The same row with different defense percentages. -/
def exStatB : StatRow :=
  { fighter_name := "John Doe".data
    Str_Acc_Pct := some 50
    TD_Acc_Pct := some 30
    Str_Def_Pct := some 99
    TD_Def_Pct := some 98
    SLpM := some 3
    TD_Avg := some 1
    Sub_Avg := some 1 }

/-- Counterexample to C4 as stated: two non-empty tables that differ
only in the strike-defense and takedown-defense columns produce
identical summaries, although the means of those columns differ — so
the summary does not return a mean and a median for each of the six
continuous metrics (the two defense metrics are never summarized). -/
theorem summary_stats_misses_defense_metrics :
    summary_fighter_stats [exStatA] = summary_fighter_stats [exStatB] ∧
    seriesMean ([exStatA].map (·.Str_Def_Pct)) ≠
      seriesMean ([exStatB].map (·.Str_Def_Pct)) ∧
    seriesMedian ([exStatA].map (·.TD_Def_Pct)) ≠
      seriesMedian ([exStatB].map (·.TD_Def_Pct)) ∧
    ([exStatA] : List StatRow) ≠ [] := by decide

/-- A statistics row in which every metric cell is missing. -/
def blankStatRow (n : PyStr) : StatRow :=
  { fighter_name := n
    Str_Acc_Pct := none
    TD_Acc_Pct := none
    Str_Def_Pct := none
    TD_Def_Pct := none
    SLpM := none
    TD_Avg := none
    Sub_Avg := none }

/-- C4 (amended): `summary_fighter_stats` returns a mean and a median
entry for each of five continuous metrics — strike accuracy, takedown
accuracy, takedowns per fight, strikes per minute and submission
attempts per fight (the defense metrics are not summarized) — and
missing values are excluded from both computations (a fully missing row
never changes the summary). -/
theorem summary_stats_five_metrics (df : List StatRow) (n : PyStr) :
    (summary_fighter_stats df).map Prod.fst =
      ["media_precisao_golpes", "mediana_precisao_golpes",
        "media_precisao_quedas", "mediana_precisao_quedas",
        "media_quedas_por_luta", "mediana_quedas_por_luta",
        "media_golpes_por_minuto", "mediana_golpes_por_minuto",
        "media_finalizacao_por_luta", "mediana_finalizacao_por_luta"] ∧
    summary_fighter_stats (blankStatRow n :: df) = summary_fighter_stats df ∧
    (summary_fighter_stats df).lookup "media_precisao_golpes" =
      some (seriesMean (df.map (·.Str_Acc_Pct))) ∧
    (summary_fighter_stats df).lookup "mediana_precisao_golpes" =
      some (seriesMedian (df.map (·.Str_Acc_Pct))) ∧
    (summary_fighter_stats df).lookup "media_precisao_quedas" =
      some (seriesMean (df.map (·.TD_Acc_Pct))) ∧
    (summary_fighter_stats df).lookup "mediana_precisao_quedas" =
      some (seriesMedian (df.map (·.TD_Acc_Pct))) ∧
    (summary_fighter_stats df).lookup "media_quedas_por_luta" =
      some (seriesMean (df.map (·.TD_Avg))) ∧
    (summary_fighter_stats df).lookup "mediana_quedas_por_luta" =
      some (seriesMedian (df.map (·.TD_Avg))) ∧
    (summary_fighter_stats df).lookup "media_golpes_por_minuto" =
      some (seriesMean (df.map (·.SLpM))) ∧
    (summary_fighter_stats df).lookup "mediana_golpes_por_minuto" =
      some (seriesMedian (df.map (·.SLpM))) ∧
    (summary_fighter_stats df).lookup "media_finalizacao_por_luta" =
      some (seriesMean (df.map (·.Sub_Avg))) ∧
    (summary_fighter_stats df).lookup "mediana_finalizacao_por_luta" =
      some (seriesMedian (df.map (·.Sub_Avg))) := by
  have hm : ∀ xs : List (Option Rat), seriesMean (none :: xs) = seriesMean xs :=
    fun xs => by simp [seriesMean]
  have hd : ∀ xs : List (Option Rat),
      seriesMedian (none :: xs) = seriesMedian xs :=
    fun xs => by simp [seriesMedian]
  refine ⟨rfl, ?_, rfl, rfl, rfl, rfl, rfl, rfl, rfl, rfl, rfl, rfl⟩
  simp only [summary_fighter_stats, List.map_cons, blankStatRow, hm, hd]

/- ## C3 : fighter_summary total wins vs fighter_wins_by_category_and_method -/

/-- The kept `value_counts` row contributed by one record, if any. -/
def keyedOf (r : FightRow) : Option (PyStr × PyStr × PyStr) :=
  (winEntryOf r).bind fun e =>
    match e.2.1, e.2.2 with
    | some w, some m => some (e.1, w, m)
    | _, _ => none

theorem keyedWins_eq (df : List FightRow) :
    keyedWins df = df.filterMap keyedOf := by
  rw [keyedWins, winEntries, List.filterMap_filterMap]
  rfl

/-- A name cell whose normalization is a non-empty string. -/
def goodName (o : Option PyStr) : Bool :=
  match _normalize_name o with
  | some t => decide (t ≠ [])
  | none => false

/-- Records on which `fighter_summary` and
`fighter_wins_by_category_and_method` agree on the winner: both names
normalize to non-empty strings and the weight class and method are
present. -/
def c3Row (r : FightRow) : Bool :=
  goodName r.p1_name && goodName r.p2_name &&
    r.wtClass.isSome && r.decision_group.isSome

theorem goodName_spec {o : Option PyStr} (h : goodName o = true) :
    ∃ s t, o = some s ∧ _normalize_name (some s) = some t ∧
      s ≠ [] ∧ t ≠ [] := by
  cases o with
  | none => simp [goodName, _normalize_name] at h
  | some s =>
    rcases hn : _normalize_name (some s) with _ | t
    · rw [goodName, hn] at h; cases h
    · have ht : t ≠ [] := by
        rw [goodName, hn] at h
        simpa using h
      refine ⟨s, t, rfl, hn, ?_, ht⟩
      intro hs
      subst hs
      have : _normalize_name (some ([] : PyStr)) = some [] := rfl
      rw [this] at hn
      exact ht (Option.some_inj.mp hn).symm

/-- Under `c3Row`, the name kept by `fighter_wins_by_category_and_method`
is exactly the winner credited by `fighter_summary`. -/
theorem keyedOf_name {r : FightRow} (h : c3Row r = true) :
    (keyedOf r).map (·.1) = summaryWinner r := by
  have h' := h
  simp only [c3Row, Bool.and_eq_true] at h'
  obtain ⟨⟨⟨hg1, hg2⟩, hwc⟩, hdg⟩ := h'
  obtain ⟨s1, t1, hp1, hn1, hs1, ht1⟩ := goodName_spec hg1
  obtain ⟨s2, t2, hp2, hn2, hs2, ht2⟩ := goodName_spec hg2
  obtain ⟨w, hw⟩ := Option.isSome_iff_exists.mp hwc
  obtain ⟨m, hm⟩ := Option.isSome_iff_exists.mp hdg
  by_cases hW1 : resCode r.p1_result = ['W']
  · have hsw : summaryWinner r = some t1 := by
      simp [summaryWinner, hW1, hp1, hn1]
    have hke : winEntryOf r = some (t1, r.wtClass, r.decision_group) := by
      simp [winEntryOf, hW1, hp1, hs1, hn1, ht1]
    rw [keyedOf, hke, hsw]
    simp [hw, hm]
  · by_cases hW2 : resCode r.p2_result = ['W']
    · have hsw : summaryWinner r = some t2 := by
        simp [summaryWinner, hW1, hW2, hp2, hn2]
      have hke : winEntryOf r = some (t2, r.wtClass, r.decision_group) := by
        simp [winEntryOf, hW1, hW2, hp2, hs2, hn2, ht2]
      rw [keyedOf, hke, hsw]
      simp [hw, hm]
    · have hsw : summaryWinner r = none := by
        simp [summaryWinner, hW1, hW2]
      have hke : winEntryOf r = none := by
        simp [winEntryOf, hW1, hW2]
      rw [keyedOf, hke, hsw]
      rfl

/-- Under `c3Row`, counting kept win rows by fighter equals counting
records won by that fighter. -/
theorem keyed_countP (df : List FightRow) (f : PyStr)
    (h : ∀ r ∈ df, c3Row r = true) :
    (df.filterMap keyedOf).countP (fun t => decide (t.1 = f)) =
      df.countP (fun r => decide (summaryWinner r = some f)) := by
  induction df with
  | nil => rfl
  | cons r t ih =>
    have hr := h r (List.mem_cons_self r t)
    have ht := fun x hx => h x (List.mem_cons_of_mem r hx)
    rw [List.filterMap_cons, List.countP_cons]
    rcases hk : keyedOf r with _ | e
    · have hwn : summaryWinner r = none := by
        have hkey := keyedOf_name hr
        rw [hk] at hkey
        simpa using hkey.symm
      simp [hwn, ih ht]
    · have hew : summaryWinner r = some e.1 := by
        have hkey := keyedOf_name hr
        rw [hk] at hkey
        simpa using hkey.symm
      simp only [hk, List.countP_cons, ih ht, hew]
      simp

/-- The summed `wins` of one fighter's rows in
`fighter_wins_by_category_and_method` count that fighter's kept win
records. -/
theorem wins_rows_sum (df : List FightRow) (f : PyStr) :
    (((fighter_wins_by_category_and_method df).rows.filter
        (fun g => decide (g.fighter_name = f))).map (·.wins)).sum =
      (keyedWins df).countP (fun t => decide (t.1 = f)) := by
  rw [fighter_wins_by_category_and_method]
  by_cases hemp : (winEntries df).isEmpty
  · have hnil : winEntries df = [] := List.isEmpty_iff.mp hemp
    simp [hemp, keyedWins, hnil]
  · simp only [hemp, Bool.false_eq_true, if_false]
    have hperm := List.perm_insertionSort (fun a b : WinsRow => b.wins ≤ a.wins)
      ((keyedWins df).dedup.map fun t =>
        WinsRow.mk t.1 t.2.1 t.2.2 (countOcc (keyedWins df) t))
    rw [((hperm.filter (fun g => decide (g.fighter_name = f))).map (·.wins)).sum_eq]
    rw [List.filter_map, List.map_map]
    rw [show ((fun g : WinsRow => decide (g.fighter_name = f)) ∘
        fun t : PyStr × PyStr × PyStr =>
          WinsRow.mk t.1 t.2.1 t.2.2 (countOcc (keyedWins df) t)) =
        (fun t : PyStr × PyStr × PyStr => decide (t.1 = f)) from rfl]
    rw [show ((fun g : WinsRow => g.wins) ∘
        fun t : PyStr × PyStr × PyStr =>
          WinsRow.mk t.1 t.2.1 t.2.2 (countOcc (keyedWins df) t)) =
        (fun t => @List.count (PyStr × PyStr × PyStr) instBEqOfDecidableEq t
          (keyedWins df)) from rfl]
    exact List.sum_map_count_dedup_filter_eq_countP _ _

/-- C3 (amended): over record sets in which every record has both names
normalizing to non-empty strings and a present weight class and method,
each fighter's `total_wins` in `fighter_summary` equals the sum of that
fighter's `wins` over all rows of
`fighter_wins_by_category_and_method`. -/
theorem summary_total_wins_eq_wins_by_sum (df : List FightRow)
    (stats : List StatRow) (h : ∀ r ∈ df, c3Row r = true)
    (row : SummaryRow) (hrow : row ∈ fighter_summary df stats) :
    row.total_wins =
      (((fighter_wins_by_category_and_method df).rows.filter
        (fun g => decide (g.fighter_name = row.fighter_name))).map (·.wins)).sum := by
  obtain ⟨f, st, rfl⟩ := mem_fighter_summary hrow
  have hname : (mkSummaryRow (summaryScan df) f st).fighter_name = f := rfl
  have hlhs : (mkSummaryRow (summaryScan df) f st).total_wins =
      df.countP (fun r => decide (summaryWinner r = some f)) := by
    simp only [mkSummaryRow]
    exact scan_total_wins df f
  rw [hlhs, hname, wins_rows_sum df f, keyedWins_eq, keyed_countP df f h]

/-- Counterexample to C3 as stated: on the record `exRow2` (side 1
unnamed, both result codes `"W"`), `fighter_summary` reports one win for
`"Bob Lee"`, while `fighter_wins_by_category_and_method` has no row at
all, so the per-fighter sums cannot agree. -/
theorem summary_wins_differ_from_wins_by :
    (fighter_summary [exRow2] []).map (fun r => (r.fighter_name, r.total_wins)) =
      [("Bob Lee".data, 1)] ∧
    (fighter_wins_by_category_and_method [exRow2]).rows = [] ∧
    (1 : Nat) ≠ 0 := by decide

/-- Witness for `summary_total_wins_eq_wins_by_sum` at a concrete
record set. -/
theorem summary_total_wins_eq_wins_by_sum_witness :
    (∀ r ∈ [exRow1], c3Row r = true) ∧
    exSummaryRow1 ∈ fighter_summary [exRow1] [] ∧
    exSummaryRow1.total_wins =
      (((fighter_wins_by_category_and_method [exRow1]).rows.filter
        (fun g => decide (g.fighter_name = exSummaryRow1.fighter_name))).map
          (·.wins)).sum :=
  ⟨by decide, by decide,
    summary_total_wins_eq_wins_by_sum [exRow1] [] (by decide)
      exSummaryRow1 (by decide)⟩
